import Mathlib

/-!
Verification development for the `HistoryManager` record store
(`src/historyManager.py`).  The store keeps an ordered list of
download records (url, status), persists them to a JSON file, and
serves a searched, paginated, reversed view to the presentation layer.

Python dictionaries holding a record may lack the "url" or "status"
key, and the code reads them with `get` (with or without a default),
so a record is embedded as a pair of `Option String` fields.  Search
text is normalised once per operation by `strip().lower()`; both
string operations are modelled below over `List Char`.  Python
dynamic-type faults (attribute or type errors on ill-shaped JSON) are
modelled in a separate dynamic layer with `Except`.
-/

namespace HistoryStore

/-- MAX_VISIBLE, the page size of the history view. -/
def MAX_VISIBLE : Nat := 15

/-! ### String primitives modelling Python str operations -/

/-- Model of Python str.lower, character-wise lowering. -/
def lowerStr (s : String) : String :=
  ⟨s.data.map Char.toLower⟩

/-- Remove leading and trailing whitespace from a character list. -/
def stripChars (l : List Char) : List Char :=
  ((l.dropWhile Char.isWhitespace).reverse.dropWhile Char.isWhitespace).reverse

/-- Model of Python str.strip with no argument. -/
def stripStr (s : String) : String :=
  ⟨stripChars s.data⟩

/-- Is `n` a leading segment of `h`. -/
def isPre : List Char → List Char → Bool
  | [], _ => true
  | _ :: _, [] => false
  | a :: as, b :: bs => a == b && isPre as bs

/-- Does the character list `h` contain `n` as a contiguous run. -/
def hasSub (n : List Char) : List Char → Bool
  | [] => n.isEmpty
  | c :: t => isPre n (c :: t) || hasSub n t

/-- Model of the Python `needle in hay` substring test. -/
def containsSub (hay needle : String) : Bool :=
  hasSub needle.data hay.data

/-- The normalised search text: `self.search_bar.text().strip().lower()`,
computed once at the top of `refresh_history_list` and of
`delete_callback`. -/
def canonQuery (s : String) : String :=
  lowerStr (stripStr s)

/-! ### Records and the store state -/

/-- One history record as stored: a Python dict whose "url" and
"status" entries may be absent (other keys are never consulted by the
code, so they are omitted from the embedding). -/
structure RawRecord where
  url : Option String
  status : Option String
deriving DecidableEq, Repr

/-- A default record value used with `List.getD` under a bounds guard
(never actually selected). -/
def dfltRec : RawRecord := ⟨none, none⟩

/-- Python slice `l[-dc:]` for a natural `dc`: the last `dc` elements,
except that `l[-0:]` is the whole list. -/
def pyTail (l : List α) (dc : Nat) : List α :=
  if dc = 0 then l else l.drop (l.length - dc)

/-- The filter predicate of `refresh_history_list` and
`delete_callback`: `query in item.get("url", "").lower() or query in
item.get("status", "").lower()` (with `query` already normalised). -/
def matchesQuery (q : String) (r : RawRecord) : Bool :=
  containsSub (lowerStr (r.url.getD "")) q ||
    containsSub (lowerStr (r.status.getD "")) q

/-- The view computation shared by `refresh_history_list` and
`delete_callback`, with the search text already normalised:
`show_items = self.history[-self.display_count:][::-1]`, then filtered
when the normalised query is nonempty. -/
def queryCore (hist : List RawRecord) (q : String) (dc : Nat) : List RawRecord :=
  let page := (pyTail hist dc).reverse
  if q = "" then page else page.filter (matchesQuery q)

/-- `query(searchText, visibleCount)`: the filtered view computed by
`refresh_history_list` from the raw search text. -/
def queryFn (hist : List RawRecord) (searchText : String) (dc : Nat) : List RawRecord :=
  queryCore hist (canonQuery searchText) dc

/-- `hasMore(searchText, visibleCount)`: the visibility condition of
the load-more button, `self.display_count < len(self.history) and not
query`. -/
def hasMoreFn (hist : List RawRecord) (searchText : String) (dc : Nat) : Bool :=
  decide (dc < hist.length) && decide (canonQuery searchText = "")

/-- The deletion match test of `delete_callback`:
`h.get("url") == to_del.get("url") and h.get("status") ==
to_del.get("status")` (note: `get` with no default, so an absent key
is distinct from an empty string). -/
def recMatches (h t : RawRecord) : Bool :=
  decide (h.url = t.url) && decide (h.status = t.status)

/-- The removal loop of `delete_callback`: pop the first record that
matches the target, scanning from index 0; leave the list unchanged
when nothing matches. -/
def popFirstMatch : List RawRecord → RawRecord → List RawRecord
  | [], _ => []
  | h :: t, tgt => if recMatches h tgt then t else h :: popFirstMatch t tgt

/-- Index of the first record matching the target, if any. -/
def firstMatchIdx : List RawRecord → RawRecord → Option Nat
  | [], _ => none
  | h :: t, tgt =>
    if recMatches h tgt then some 0 else (firstMatchIdx t tgt).map (· + 1)

/-! ### JSON values and the backing file

`load_history` stores the raw result of `json.load` in `self.history`;
`save_history` dumps `self.history` back.  JSON values are embedded as
an inductive; the backing file is `Option JVal`, where `none` stands
for a missing file or content on which `json.load` raises (both leave
`self.history = []`). -/

/-- A parsed JSON value. -/
inductive JVal where
  | jnull
  | jbool (b : Bool)
  | jnum (n : Int)
  | jstr (s : String)
  | jarr (elems : List JVal)
  | jobj (fields : List (String × JVal))

open JVal

/-- Python dict lookup returning the stored value if the key is
present. -/
def jlookup (k : String) : List (String × JVal) → Option JVal
  | [] => none
  | (k₂, v) :: t => if k₂ = k then some v else jlookup k t

/-- Serialisation of one record by `json.dump`: a JSON object holding
exactly the keys present in the dict. -/
def encodeRecordVal (r : RawRecord) : JVal :=
  jobj ((match r.url with
          | some u => [("url", jstr u)]
          | none => []) ++
        (match r.status with
          | some s => [("status", jstr s)]
          | none => []))

/-- Serialisation of the whole history list by `json.dump`. -/
def encodeHistory (l : List RawRecord) : JVal :=
  jarr (l.map encodeRecordVal)

/-- Reading one record back from a parsed JSON value; succeeds only on
an object whose url and status entries, when present, are strings. -/
def decodeRecordVal : JVal → Option RawRecord
  | jobj fs =>
    (match jlookup "url" fs with
      | none => some none
      | some (jstr u) => some (some u)
      | some _ => none).bind fun u =>
    (match jlookup "status" fs with
      | none => some none
      | some (jstr s) => some (some s)
      | some _ => none).bind fun s =>
    some ⟨u, s⟩
  | _ => none

/-- Reading a list of records back from parsed JSON values. -/
def decodeList : List JVal → Option (List RawRecord)
  | [] => some []
  | v :: t => (decodeRecordVal v).bind fun r => (decodeList t).map (r :: ·)

/-- Reading the whole history back from a parsed JSON value. -/
def decodeHistoryVal : JVal → Option (List RawRecord)
  | jarr l => decodeList l
  | _ => none

/-- `load_history` at the level of raw JSON: `self.history` becomes
the parsed value of the file, or the empty list when the file is
missing or unparsable, and `self.display_count` is reset to
MAX_VISIBLE. -/
def loadDyn (file : Option JVal) : JVal × Nat :=
  (file.getD (jarr []), MAX_VISIBLE)

/-! ### Store state and the mutating operations -/

/-- The store fields of the widget: the record list, the display
count, and the backing file (written by `save_history`, which the code
treats as always succeeding; a swallowed write failure leaves an older
file, which is outside this model). -/
structure HMState where
  history : List RawRecord
  display_count : Nat
  file : Option JVal

/-- `delete_callback` with the search text already normalised:
recompute the view, and when the view index is in bounds pop the first
matching record, save, and clamp the display count. -/
def deleteCore (st : HMState) (q : String) (viewIdx : Nat) : HMState :=
  let view := queryCore st.history q st.display_count
  if viewIdx < view.length then
    let tgt := view.getD viewIdx dfltRec
    let h₂ := popFirstMatch st.history tgt
    { history := h₂
      display_count := min st.display_count h₂.length
      file := some (encodeHistory h₂) }
  else st

/-- `deleteAt(filteredView, viewIndex)`: `delete_callback(view_idx)`
from the raw search text. -/
def deleteAtOp (st : HMState) (searchText : String) (viewIdx : Nat) : HMState :=
  deleteCore st (canonQuery searchText) viewIdx

/-- `add_to_history(url, status)`: append, save, bump the display
count capped at the new length. -/
def addOp (st : HMState) (url status : String) : HMState :=
  let h₂ := st.history ++ [⟨some url, some status⟩]
  { history := h₂
    display_count := min (st.display_count + 1) h₂.length
    file := some (encodeHistory h₂) }

/-- The confirmed branch of `clear_history`: empty the list and save
(the display count is not touched). -/
def clearOp (st : HMState) : HMState :=
  { history := []
    display_count := st.display_count
    file := some (encodeHistory []) }

/-- `show_more_history`: grow the display count by one page. -/
def showMoreOp (st : HMState) : HMState :=
  { st with display_count := st.display_count + MAX_VISIBLE }

/-- `refresh_history_list` as a state transformer paired with the
computed view: the method reads the search text and the store fields
and writes only presentation widgets (table rows, the empty label, the
load-more button), so the store fields pass through unchanged. -/
def queryOp (st : HMState) (searchText : String) : HMState × List RawRecord :=
  let q := canonQuery searchText
  (st, queryCore st.history q st.display_count)

/-- One export block, `f.write` per record in `export_history`:
`URL: {url}\nStatus: {status}\n\n` with fields read through
`get(key, "")`. -/
def exportBlock (r : RawRecord) : String :=
  "URL: " ++ r.url.getD "" ++ "\nStatus: " ++ r.status.getD "" ++ "\n\n"

/-- `export_history` body: the blocks written in stored order,
concatenated. -/
def exportHistory : List RawRecord → String
  | [] => ""
  | r :: t => exportBlock r ++ exportHistory t

/-! ### Dynamic layer

`self.history` is whatever `json.load` returned, so the view
computation can hit Python dynamic-type faults on content that is
valid JSON but not an array of record objects.  Operations that would
raise are modelled with `Except String`, the error text naming the
Python exception class. -/

/-- `x.lower()`: defined on strings, raises AttributeError
otherwise. -/
def pyLowerV : JVal → Except String String
  | jstr s => .ok (lowerStr s)
  | _ => .error "AttributeError"

/-- `x.get(k, d)`: defined on dicts, raises AttributeError
otherwise. -/
def pyGetDV (v : JVal) (k : String) (d : JVal) : Except String JVal :=
  match v with
  | jobj fs => .ok ((jlookup k fs).getD d)
  | _ => .error "AttributeError"

/-- `self.history[-dc:][::-1]` on a raw value: arrays slice to their
element lists, strings slice to their characters (each a one-character
string), and every other value raises TypeError. -/
def pySliceRevV (v : JVal) (dc : Nat) : Except String (List JVal) :=
  match v with
  | jarr l => .ok (pyTail l dc).reverse
  | jstr s => .ok (((pyTail s.data dc).reverse).map fun c => jstr ⟨[c]⟩)
  | _ => .error "TypeError"

/-- The filtering list comprehension on raw values, in Python
evaluation order: per item, the url side of the disjunction first, the
status side only when the url side is false; the first raising item
aborts the whole comprehension. -/
def filterDyn (q : String) : List JVal → Except String (List JVal)
  | [] => .ok []
  | item :: t =>
    match pyGetDV item "url" (jstr "") with
    | .error e => .error e
    | .ok u =>
      match pyLowerV u with
      | .error e => .error e
      | .ok ul =>
        if containsSub ul q then
          match filterDyn q t with
          | .error e => .error e
          | .ok rest => .ok (item :: rest)
        else
          match pyGetDV item "status" (jstr "") with
          | .error e => .error e
          | .ok s =>
            match pyLowerV s with
            | .error e => .error e
            | .ok sl =>
              match filterDyn q t with
              | .error e => .error e
              | .ok rest =>
                if containsSub sl q then .ok (item :: rest) else .ok rest

/-- The view computation of `refresh_history_list` and
`delete_callback` on a raw history value, faulting exactly where
Python would. -/
def queryDyn (hist : JVal) (searchText : String) (dc : Nat) :
    Except String (List JVal) :=
  let q := canonQuery searchText
  match pySliceRevV hist dc with
  | .error e => .error e
  | .ok page => if q = "" then .ok page else filterDyn q page

/-- Did the computation raise. -/
def isErr : Except String α → Bool
  | .error _ => true
  | .ok _ => false

/-- Normalising a record: replace an absent field by the empty string,
the value every read through `get(key, "")` produces. -/
def normRecord (r : RawRecord) : RawRecord :=
  ⟨some (r.url.getD ""), some (r.status.getD "")⟩

/-! ### Helper lemmas -/

theorem lowerStr_eq_empty (s : String) : lowerStr s = "" ↔ s = "" := by
  cases s with
  | mk d =>
    constructor
    · intro h
      have hd : d.map Char.toLower = [] := congrArg String.data h
      have : d = [] := List.map_eq_nil_iff.mp hd
      rw [this]
    · intro h; rw [h]; rfl

theorem canonQuery_empty : canonQuery "" = "" := rfl

theorem canonQuery_ws (s : String) (hws : ∀ c ∈ s.data, c.isWhitespace) :
    canonQuery s = "" := by
  have h₁ : s.data.dropWhile Char.isWhitespace = [] :=
    List.dropWhile_eq_nil_iff.mpr hws
  have h₂ : stripChars s.data = [] := by
    unfold stripChars
    rw [h₁]; rfl
  have h₃ : stripStr s = "" := by
    unfold stripStr
    rw [h₂]
  unfold canonQuery
  rw [h₃]
  rfl

theorem hasSub_nil (hay : List Char) : hasSub [] hay = true := by
  cases hay <;> rfl

theorem containsSub_empty (hay : String) : containsSub hay "" = true := by
  unfold containsSub
  exact hasSub_nil hay.data

theorem pyTail_sub {l : List α} {a : α} (dc : Nat) (h : a ∈ pyTail l dc) :
    a ∈ l := by
  unfold pyTail at h
  split at h
  · exact h
  · exact List.mem_of_mem_drop h

theorem mem_queryCore {l : List RawRecord} {q : String} {dc : Nat}
    {r : RawRecord} (h : r ∈ queryCore l q dc) : r ∈ l := by
  unfold queryCore at h
  split at h
  · exact pyTail_sub dc (List.mem_reverse.mp h)
  · exact pyTail_sub dc (List.mem_reverse.mp (List.mem_filter.mp h).1)

theorem recMatches_self (t : RawRecord) : recMatches t t = true := by
  simp [recMatches]

theorem firstMatchIdx_isSome (l : List RawRecord) (t : RawRecord)
    (h : t ∈ l) : (firstMatchIdx l t).isSome := by
  induction l with
  | nil => cases h
  | cons a tl ih =>
    unfold firstMatchIdx
    by_cases hm : recMatches a t = true
    · simp [hm]
    · rcases List.mem_cons.mp h with h₁ | h₂
      · rw [h₁] at hm
        exact absurd (recMatches_self a) hm
      · rw [if_neg hm]
        rcases Option.isSome_iff_exists.mp (ih h₂) with ⟨j, hj⟩
        simp [hj]

theorem firstMatchIdx_spec (l : List RawRecord) (t : RawRecord) (j : Nat)
    (h : firstMatchIdx l t = some j) :
    j < l.length ∧ recMatches (l.getD j dfltRec) t = true ∧
      ∀ k, k < j → recMatches (l.getD k dfltRec) t = false := by
  induction l generalizing j with
  | nil => simp [firstMatchIdx] at h
  | cons a tl ih =>
    unfold firstMatchIdx at h
    by_cases hm : recMatches a t = true
    · rw [if_pos hm] at h
      cases h
      exact ⟨Nat.succ_pos _, hm, fun k hk => absurd hk (Nat.not_lt_zero k)⟩
    · rw [if_neg hm] at h
      rcases Option.map_eq_some'.mp h with ⟨j₂, hj₂, hadd⟩
      rcases ih j₂ hj₂ with ⟨hlt, hat, hbefore⟩
      refine ⟨?_, ?_, ?_⟩
      · rw [← hadd]
        exact Nat.succ_lt_succ hlt
      · rw [← hadd, List.getD_cons_succ]
        exact hat
      · intro k hk
        rw [← hadd] at hk
        match k with
        | 0 =>
          rw [List.getD_cons_zero]
          exact Bool.eq_false_iff.mpr hm
        | k₂ + 1 =>
          rw [List.getD_cons_succ]
          exact hbefore k₂ (Nat.lt_of_succ_lt_succ hk)

theorem popFirstMatch_eq (l : List RawRecord) (t : RawRecord) :
    popFirstMatch l t =
      match firstMatchIdx l t with
      | some j => l.eraseIdx j
      | none => l := by
  induction l with
  | nil => rfl
  | cons a tl ih =>
    unfold popFirstMatch firstMatchIdx
    by_cases hm : recMatches a t = true
    · simp [hm]
    · rw [if_neg hm, if_neg hm, ih]
      cases firstMatchIdx tl t <;> rfl

theorem getD_mem {l : List α} {n : Nat} (d : α) (h : n < l.length) :
    l.getD n d ∈ l := by
  have he : l.getD n d = l.get ⟨n, h⟩ := by
    simp [List.getD_eq_getElem?_getD, List.getElem?_eq_getElem h]
  rw [he]
  exact List.get_mem l n h

/-! ### Claim theorems -/

/-- C2, counterexample: the claim asserts that an empty search with
visibleCount = 0 returns the empty sequence, but the code slices with
`history[-0:]`, which is the whole list, so the query returns every
record reversed. -/
theorem C2_counterexample :
    queryFn [(⟨some "a", some "s"⟩ : RawRecord)] "" 0 =
      [⟨some "a", some "s"⟩] ∧
    [(⟨some "a", some "s"⟩ : RawRecord)] ≠ ([] : List RawRecord) :=
  ⟨by decide, by decide⟩

/-- C2, amended: with empty search text and 1 ≤ visibleCount ≤
len(records), query returns exactly the last visibleCount records in
reversed newest-first order with no duplicates or omissions; for
visibleCount = 0 the Python slice `[-0:]` selects the whole list, so
the query returns all records reversed rather than the empty
sequence. -/
theorem C2_query_page (l : List RawRecord) :
    queryFn l "" 0 = l.reverse ∧
    ∀ vc : Nat, 1 ≤ vc → vc ≤ l.length →
      queryFn l "" vc = (l.drop (l.length - vc)).reverse := by
  constructor
  · rfl
  · intro vc h₁ _
    have hvc : vc ≠ 0 := by omega
    simp [queryFn, canonQuery_empty, queryCore, pyTail, hvc]

/-- Witness for C2_query_page at records [(a,s),(b,t)] and
visibleCount 1. -/
theorem C2_query_page_witness :
    ((1:Nat) ≤ 1 ∧
      (1:Nat) ≤ [(⟨some "a", some "s"⟩ : RawRecord),
        ⟨some "b", some "t"⟩].length) ∧
    queryFn [(⟨some "a", some "s"⟩ : RawRecord), ⟨some "b", some "t"⟩] "" 1 =
      (([(⟨some "a", some "s"⟩ : RawRecord), ⟨some "b", some "t"⟩].drop
        ([(⟨some "a", some "s"⟩ : RawRecord),
          ⟨some "b", some "t"⟩].length - 1)).reverse) :=
  ⟨⟨le_refl 1, by decide⟩,
   (C2_query_page [⟨some "a", some "s"⟩, ⟨some "b", some "t"⟩]).2 1
     (le_refl 1) (by decide)⟩

/-- C3, counterexample: the claim asserts hasMore is false for every
non-empty search string including whitespace-only ones, but the code
tests `not query` after stripping, so a whitespace-only search string
leaves pagination enabled. -/
theorem C3_counterexample :
    hasMoreFn [(⟨some "a", some "s"⟩ : RawRecord)] " " 0 = true ∧
    (" " : String) ≠ "" :=
  ⟨by decide, by decide⟩

/-- C3, amended: hasMore(searchText, visibleCount) is true if and only
if visibleCount < len(records) and searchText strips to the empty
string; whitespace-only search strings behave exactly like the empty
search string. -/
theorem C3_hasMore (l : List RawRecord) (s : String) (vc : Nat) :
    hasMoreFn l s vc = true ↔ vc < l.length ∧ stripStr s = "" := by
  unfold hasMoreFn
  rw [Bool.and_eq_true, decide_eq_true_eq, decide_eq_true_eq]
  constructor
  · rintro ⟨h₁, h₂⟩
    exact ⟨h₁, (lowerStr_eq_empty _).mp h₂⟩
  · rintro ⟨h₁, h₂⟩
    refine ⟨h₁, ?_⟩
    unfold canonQuery
    rw [h₂]
    rfl

/-- C6, counterexample: the claim asserts every returned record
contains q.lower(), but the code strips the query first; for the
whitespace-only query " " no filtering happens at all and the
returned record contains " " in neither lowered field. -/
theorem C6_counterexample :
    queryFn [(⟨some "b", some "c"⟩ : RawRecord)] " " 1 =
      [⟨some "b", some "c"⟩] ∧
    containsSub (lowerStr "b") (lowerStr " ") = false ∧
    containsSub (lowerStr "c") (lowerStr " ") = false :=
  ⟨by decide, by decide, by decide⟩

/-- C6, amended: every record returned by query(q, visibleCount) has
the stripped-and-lowered query as a substring of its lowered url or
lowered status, and the result preserves the relative order of the
reversed page (it is a sublist of it). -/
theorem C6_query_filter (l : List RawRecord) (q : String) (vc : Nat) :
    (queryFn l q vc).Sublist ((pyTail l vc).reverse) ∧
    ∀ r ∈ queryFn l q vc,
      containsSub (lowerStr (r.url.getD "")) (canonQuery q) = true ∨
      containsSub (lowerStr (r.status.getD "")) (canonQuery q) = true := by
  unfold queryFn queryCore
  by_cases h : canonQuery q = ""
  · rw [if_pos h]
    refine ⟨List.Sublist.refl _, ?_⟩
    intro r _
    rw [h]
    exact Or.inl (containsSub_empty _)
  · rw [if_neg h]
    refine ⟨List.filter_sublist _, ?_⟩
    intro r hr
    have hm : matchesQuery (canonQuery q) r = true := (List.mem_filter.mp hr).2
    unfold matchesQuery at hm
    rw [Bool.or_eq_true] at hm
    exact hm

/-- Witness for C6_query_filter at records [(xa,s)], query "A",
visibleCount 1. -/
theorem C6_query_filter_witness :
    ((⟨some "xa", some "s"⟩ : RawRecord) ∈
      queryFn [(⟨some "xa", some "s"⟩ : RawRecord)] "A" 1) ∧
    (containsSub (lowerStr ((some "xa").getD "")) (canonQuery "A") = true ∨
      containsSub (lowerStr ((some "s").getD "")) (canonQuery "A") = true) :=
  ⟨by decide,
   (C6_query_filter [⟨some "xa", some "s"⟩] "A" 1).2
     ⟨some "xa", some "s"⟩ (by decide)⟩

/-- C8: export writes one block per record in stored oldest-first
order (appending a newest record appends its block at the end), each
block being "URL: u", "Status: s" and a blank line; on the single
record (a, ok) the output is exactly "URL: a\nStatus: ok\n\n". -/
theorem C8_export (l₁ l₂ : List RawRecord) (u s : Option String) :
    exportHistory (l₁ ++ l₂) = exportHistory l₁ ++ exportHistory l₂ ∧
    exportHistory [(⟨u, s⟩ : RawRecord)] =
      "URL: " ++ u.getD "" ++ "\nStatus: " ++ s.getD "" ++ "\n\n" ∧
    exportHistory [(⟨some "a", some "ok"⟩ : RawRecord)] =
      "URL: a\nStatus: ok\n\n" := by
  refine ⟨?_, ?_, ?_⟩
  · induction l₁ with
    | nil => rfl
    | cons r t ih => simp [exportHistory, ih, String.append_assoc]
  · simp [exportHistory, exportBlock, String.append_empty]
  · rfl

/-- C9: query is a pure read: it leaves the store state (records,
visibleCount, backing file) unchanged, agrees with the pure view
function, and a second call on the resulting state returns the same
view. -/
theorem C9_query_pure (st : HMState) (s : String) :
    (queryOp st s).1 = st ∧
    (queryOp st s).2 = queryFn st.history s st.display_count ∧
    (queryOp (queryOp st s).1 s).2 = (queryOp st s).2 :=
  ⟨rfl, rfl, rfl⟩

/-- C10: the search text is stripped and lowercased before use, so a
whitespace-only search text normalises to the empty query and yields
the same query result, hasMore value, and deleteAt behaviour as the
empty search text. -/
theorem C10_strip_equiv (s : String) (hws : ∀ c ∈ s.data, c.isWhitespace) :
    canonQuery s = "" ∧
    (∀ l vc, queryFn l s vc = queryFn l "" vc) ∧
    (∀ l vc, hasMoreFn l s vc = hasMoreFn l "" vc) ∧
    ∀ st i, deleteAtOp st s i = deleteAtOp st "" i := by
  have h := canonQuery_ws s hws
  refine ⟨h, ?_, ?_, ?_⟩
  · intro l vc
    unfold queryFn
    rw [h, canonQuery_empty]
  · intro l vc
    unfold hasMoreFn
    rw [h, canonQuery_empty]
  · intro st i
    unfold deleteAtOp
    rw [h, canonQuery_empty]

theorem decode_encode_record (r : RawRecord) :
    decodeRecordVal (encodeRecordVal r) = some r := by
  rcases r with ⟨u, s⟩
  cases u <;> cases s <;> rfl

theorem decode_encode (l : List RawRecord) :
    decodeHistoryVal (encodeHistory l) = some l := by
  have h : ∀ m : List RawRecord, decodeList (m.map encodeRecordVal) = some m := by
    intro m
    induction m with
    | nil => rfl
    | cons r t ih => simp [decodeList, decode_encode_record, ih]
  exact h l

/-- C7: serialising a record sequence whose url and status fields are
both present and reading it back yields a sequence with the same
(url, status) pairs. -/
theorem C7_roundtrip (l : List RawRecord)
    (_hstr : ∀ r ∈ l, r.url.isSome ∧ r.status.isSome) :
    ∃ l₂, decodeHistoryVal (encodeHistory l) = some l₂ ∧
      l₂.map (fun r => (r.url, r.status)) = l.map fun r => (r.url, r.status) :=
  ⟨l, decode_encode l, rfl⟩

/-- Witness for C7_roundtrip at the single record (a, b). -/
theorem C7_roundtrip_witness :
    (∀ r ∈ [(⟨some "a", some "b"⟩ : RawRecord)],
      r.url.isSome ∧ r.status.isSome) ∧
    ∃ l₂, decodeHistoryVal
        (encodeHistory [(⟨some "a", some "b"⟩ : RawRecord)]) = some l₂ ∧
      l₂.map (fun r => (r.url, r.status)) =
        [(⟨some "a", some "b"⟩ : RawRecord)].map fun r => (r.url, r.status) :=
  ⟨by decide, C7_roundtrip [⟨some "a", some "b"⟩] (by decide)⟩

/-- C4, counterexample: loading a file whose single record has only a
url key stores that record with its status field missing, not
defaulted to the empty string; the stored sequence is the parsed
content verbatim. -/
theorem C4_counterexample :
    loadDyn (some (jarr [jobj [("url", jstr "a")]])) =
      (jarr [jobj [("url", jstr "a")]], MAX_VISIBLE) ∧
    decodeHistoryVal (jarr [jobj [("url", jstr "a")]]) =
      some [⟨some "a", none⟩] ∧
    (⟨some "a", none⟩ : RawRecord).status = none :=
  ⟨rfl, by decide, rfl⟩

theorem matchesQuery_norm (q : String) (r : RawRecord) :
    matchesQuery q (normRecord r) = matchesQuery q r := by
  simp [matchesQuery, normRecord]

theorem pyTail_map (f : α → β) (l : List α) (n : Nat) :
    pyTail (l.map f) n = (pyTail l n).map f := by
  unfold pyTail
  by_cases h : n = 0
  · simp [h]
  · rw [if_neg h, if_neg h, List.length_map, ← List.map_drop]

theorem queryCore_norm (l : List RawRecord) (q : String) (vc : Nat) :
    queryCore (l.map normRecord) q vc = (queryCore l q vc).map normRecord := by
  unfold queryCore
  by_cases h : q = ""
  · rw [if_pos h, if_pos h, pyTail_map]
    exact (List.map_reverse normRecord (pyTail l vc)).symm
  · rw [if_neg h, if_neg h, pyTail_map, ← List.map_reverse, List.filter_map]
    have hp : (matchesQuery q ∘ normRecord) = matchesQuery q := by
      funext r
      exact matchesQuery_norm q r
    rw [hp]

/-- C4, amended: load stores the parsed record sequence verbatim, so a
record may keep a missing url or status field; but every read goes
through a default of the empty string, so replacing missing fields by
empty strings changes neither the query result, nor the export text,
nor hasMore. -/
theorem C4_load_verbatim (l : List RawRecord) (s : String) (vc : Nat) :
    loadDyn (some (encodeHistory l)) = (encodeHistory l, MAX_VISIBLE) ∧
    queryFn (l.map normRecord) s vc = (queryFn l s vc).map normRecord ∧
    exportHistory (l.map normRecord) = exportHistory l ∧
    hasMoreFn (l.map normRecord) s vc = hasMoreFn l s vc := by
  refine ⟨rfl, queryCore_norm l (canonQuery s) vc, ?_, ?_⟩
  · induction l with
    | nil => rfl
    | cons r t ih =>
      have hb : exportBlock (normRecord r) = exportBlock r := by
        simp [exportBlock, normRecord]
      simp [exportHistory, hb, ih]
  · unfold hasMoreFn
    rw [List.length_map]

theorem deleteCore_spec (hist : List RawRecord) (dc : Nat) (q : String)
    (file : Option JVal) (i : Nat)
    (hi : i < (queryCore hist q dc).length) :
    ∃ j, j < hist.length ∧
      recMatches (hist.getD j dfltRec)
        ((queryCore hist q dc).getD i dfltRec) = true ∧
      (∀ k, k < j →
        recMatches (hist.getD k dfltRec)
          ((queryCore hist q dc).getD i dfltRec) = false) ∧
      deleteCore ⟨hist, dc, file⟩ q i =
        ⟨hist.eraseIdx j, min dc (hist.eraseIdx j).length,
          some (encodeHistory (hist.eraseIdx j))⟩ := by
  have htv : (queryCore hist q dc).getD i dfltRec ∈ queryCore hist q dc :=
    getD_mem dfltRec hi
  have hth : (queryCore hist q dc).getD i dfltRec ∈ hist := mem_queryCore htv
  obtain ⟨j, hj⟩ :=
    Option.isSome_iff_exists.mp (firstMatchIdx_isSome hist _ hth)
  obtain ⟨hjl, hjm, hjb⟩ := firstMatchIdx_spec hist _ j hj
  have hpop : popFirstMatch hist ((queryCore hist q dc).getD i dfltRec) =
      hist.eraseIdx j := by
    rw [popFirstMatch_eq, hj]
  refine ⟨j, hjl, hjm, hjb, ?_⟩
  unfold deleteCore
  simp only
  rw [if_pos hi, hpop]

theorem deleteCore_oob (hist : List RawRecord) (dc : Nat) (q : String)
    (file : Option JVal) (i : Nat)
    (h : (queryCore hist q dc).length ≤ i) :
    deleteCore ⟨hist, dc, file⟩ q i = ⟨hist, dc, file⟩ := by
  unfold deleteCore
  simp only
  rw [if_neg (by omega)]

/-- C1: when the view index is in bounds for the filtered view,
deleteAt removes from records the first record, scanning from index 0
upward, whose raw (url, status) pair equals that of the record at the
view index in the filtered view, persists the new list, and clamps the
display count to min(visibleCount, len(records)); when the view index
is out of bounds it is a no-op. -/
theorem C1_deleteAt (st : HMState) (s : String) (i : Nat) :
    (i < (queryFn st.history s st.display_count).length →
      ∃ j, j < st.history.length ∧
        recMatches (st.history.getD j dfltRec)
          ((queryFn st.history s st.display_count).getD i dfltRec) = true ∧
        (∀ k, k < j →
          recMatches (st.history.getD k dfltRec)
            ((queryFn st.history s st.display_count).getD i dfltRec) = false) ∧
        (deleteAtOp st s i).history = st.history.eraseIdx j ∧
        (deleteAtOp st s i).display_count =
          min st.display_count (st.history.eraseIdx j).length ∧
        (deleteAtOp st s i).file =
          some (encodeHistory (st.history.eraseIdx j))) ∧
    ((queryFn st.history s st.display_count).length ≤ i →
      deleteAtOp st s i = st) := by
  constructor
  · intro hi
    obtain ⟨j, h₁, h₂, h₃, h₄⟩ :=
      deleteCore_spec st.history st.display_count (canonQuery s) st.file i hi
    have h₅ : deleteAtOp st s i =
        ⟨st.history.eraseIdx j,
          min st.display_count (st.history.eraseIdx j).length,
          some (encodeHistory (st.history.eraseIdx j))⟩ := h₄
    exact ⟨j, h₁, h₂, h₃, by rw [h₅], by rw [h₅], by rw [h₅]⟩
  · intro h
    exact deleteCore_oob st.history st.display_count (canonQuery s) st.file i h

/-- Witness for C1_deleteAt at the single record (a, s), empty search,
view index 0. -/
theorem C1_deleteAt_witness :
    0 < (queryFn [(⟨some "a", some "s"⟩ : RawRecord)] "" 15).length ∧
    ∃ j, j < [(⟨some "a", some "s"⟩ : RawRecord)].length ∧
      recMatches ([(⟨some "a", some "s"⟩ : RawRecord)].getD j dfltRec)
        ((queryFn [(⟨some "a", some "s"⟩ : RawRecord)] "" 15).getD 0
          dfltRec) = true ∧
      (∀ k, k < j →
        recMatches ([(⟨some "a", some "s"⟩ : RawRecord)].getD k dfltRec)
          ((queryFn [(⟨some "a", some "s"⟩ : RawRecord)] "" 15).getD 0
            dfltRec) = false) ∧
      (deleteAtOp ⟨[⟨some "a", some "s"⟩], 15, none⟩ "" 0).history =
        [(⟨some "a", some "s"⟩ : RawRecord)].eraseIdx j ∧
      (deleteAtOp ⟨[⟨some "a", some "s"⟩], 15, none⟩ "" 0).display_count =
        min 15 ([(⟨some "a", some "s"⟩ : RawRecord)].eraseIdx j).length ∧
      (deleteAtOp ⟨[⟨some "a", some "s"⟩], 15, none⟩ "" 0).file =
        some (encodeHistory ([(⟨some "a", some "s"⟩ : RawRecord)].eraseIdx j)) :=
  ⟨by decide,
   (C1_deleteAt ⟨[⟨some "a", some "s"⟩], 15, none⟩ "" 0).1 (by decide)⟩

theorem pyGetDV_enc_url (r : RawRecord) :
    pyGetDV (encodeRecordVal r) "url" (jstr "") =
      .ok (jstr (r.url.getD "")) := by
  rcases r with ⟨u, s⟩
  cases u <;> cases s <;> rfl

theorem pyGetDV_enc_status (r : RawRecord) :
    pyGetDV (encodeRecordVal r) "status" (jstr "") =
      .ok (jstr (r.status.getD "")) := by
  rcases r with ⟨u, s⟩
  cases u <;> cases s <;> rfl

theorem filterDyn_enc (q : String) (l : List RawRecord) :
    filterDyn q (l.map encodeRecordVal) =
      .ok ((l.filter (matchesQuery q)).map encodeRecordVal) := by
  induction l with
  | nil => rfl
  | cons r t ih =>
    by_cases hu : containsSub (lowerStr (r.url.getD "")) q = true
    · simp [filterDyn, pyGetDV_enc_url, pyLowerV, hu, ih,
        List.filter_cons, matchesQuery]
    · by_cases hs : containsSub (lowerStr (r.status.getD "")) q = true
      · simp [filterDyn, pyGetDV_enc_url, pyGetDV_enc_status, pyLowerV,
          hu, hs, ih, List.filter_cons, matchesQuery]
      · simp [filterDyn, pyGetDV_enc_url, pyGetDV_enc_status, pyLowerV,
          hu, hs, ih, List.filter_cons, matchesQuery]

theorem queryDyn_enc (l : List RawRecord) (s : String) (dc : Nat) :
    queryDyn (encodeHistory l) s dc =
      .ok ((queryFn l s dc).map encodeRecordVal) := by
  have hslice : pySliceRevV (encodeHistory l) dc =
      .ok (((pyTail l dc).reverse).map encodeRecordVal) := by
    show pySliceRevV (jarr (l.map encodeRecordVal)) dc = _
    simp only [pySliceRevV]
    rw [pyTail_map, List.map_reverse]
  unfold queryDyn
  rw [hslice]
  change (if canonQuery s = "" then
      Except.ok (((pyTail l dc).reverse).map encodeRecordVal)
    else filterDyn (canonQuery s) (((pyTail l dc).reverse).map encodeRecordVal)) =
    Except.ok ((queryFn l s dc).map encodeRecordVal)
  unfold queryFn queryCore
  by_cases h : canonQuery s = ""
  · rw [if_pos h, if_pos h]
  · rw [if_neg h, if_neg h, filterDyn_enc]

/-- C5, counterexample: query faults with an uncaught AttributeError
when the backing file parses to the JSON array [1] and a non-empty
search is active, because the comprehension calls get on an int; so
not every store operation is fault-free for every backing-file
content. -/
theorem C5_counterexample :
    queryDyn (jarr [jnum 1]) "x" 15 = .error "AttributeError" ∧
    isErr (queryDyn (jarr [jnum 1]) "x" 15) = true :=
  ⟨rfl, rfl⟩

/-- C5, amended: load yields the empty sequence and resets
visibleCount to the page size whenever the backing file is missing or
unparsable, and the view computation is fault-free on every backing
file that parses to an array of record objects, where it refines the
typed query; on other JSON shapes (for example the array [1]) the view
computation raises an uncaught dynamic-type error. -/
theorem C5_load_safe :
    loadDyn none = (jarr [], MAX_VISIBLE) ∧
    ∀ (l : List RawRecord) (s : String) (dc : Nat),
      queryDyn (encodeHistory l) s dc =
        .ok ((queryFn l s dc).map encodeRecordVal) :=
  ⟨rfl, queryDyn_enc⟩

/-- Witness for C10_strip_equiv at the two-space search string. -/
theorem C10_strip_equiv_witness :
    canonQuery "  " = "" ∧
    queryFn [(⟨some "a", some "s"⟩ : RawRecord)] "  " 1 =
      queryFn [(⟨some "a", some "s"⟩ : RawRecord)] "" 1 ∧
    hasMoreFn [(⟨some "a", some "s"⟩ : RawRecord)] "  " 0 =
      hasMoreFn [(⟨some "a", some "s"⟩ : RawRecord)] "" 0 :=
  ⟨(C10_strip_equiv "  " (by decide)).1,
   (C10_strip_equiv "  " (by decide)).2.1 _ 1,
   (C10_strip_equiv "  " (by decide)).2.2.1 _ 0⟩

end HistoryStore
